import Mathlib

/-!
Verification development for the manifest-extraction pipeline in `app.py`
(Leitor de Manifestos Jadlog).  The Python source is shallowly embedded:
each regular expression of the source is translated into an explicit
backtracking matcher over `List Char` with the exact semantics of the
Python `re` module on the pattern in question (leftmost match, ordered
alternation, greedy/lazy quantifiers with backtracking), and the calls to
the Python standard library (`unicodedata`, `str.upper`, `float`) are
modelled for the Latin character repertoire the application processes.
-/

namespace Manifest

/-! ## Character model

`unicodedata.normalize("NFKD", ·)` followed by dropping combining code
points (the body of `normalize` in app.py), modelled on the Latin
repertoire of the application (the accented letters appearing in the
source's patterns and Portuguese documents).  `combMarks` are the
combining marks produced by those decompositions. -/

def combMarks : List Char := ['̀', '́', '̂', '̃', '̈', '̧']

def combiningB (c : Char) : Bool := combMarks.contains c

/-- NFKD decomposition of one character (Latin repertoire; all other
characters decompose to themselves). -/
def nfkdChar (c : Char) : List Char :=
  match c with
  | 'À' => ['A', '̀'] | 'Á' => ['A', '́'] | 'Â' => ['A', '̂']
  | 'Ã' => ['A', '̃'] | 'Ç' => ['C', '̧'] | 'É' => ['E', '́']
  | 'Ê' => ['E', '̂'] | 'Í' => ['I', '́'] | 'Ó' => ['O', '́']
  | 'Ô' => ['O', '̂'] | 'Õ' => ['O', '̃'] | 'Ú' => ['U', '́']
  | 'Ü' => ['U', '̈']
  | 'à' => ['a', '̀'] | 'á' => ['a', '́'] | 'â' => ['a', '̂']
  | 'ã' => ['a', '̃'] | 'ç' => ['c', '̧'] | 'é' => ['e', '́']
  | 'ê' => ['e', '̂'] | 'í' => ['i', '́'] | 'ó' => ['o', '́']
  | 'ô' => ['o', '̂'] | 'õ' => ['o', '̃'] | 'ú' => ['u', '́']
  | 'ü' => ['u', '̈']
  | 'º' => ['o']
  | _ => [c]

/-- Python `str.upper()` per character (ASCII letters and the accented letters of
the repertoire; everything else is fixed). -/
def pyUpperCh (c : Char) : Char :=
  match c with
  | 'a' => 'A' | 'b' => 'B' | 'c' => 'C' | 'd' => 'D' | 'e' => 'E' | 'f' => 'F'
  | 'g' => 'G' | 'h' => 'H' | 'i' => 'I' | 'j' => 'J' | 'k' => 'K' | 'l' => 'L'
  | 'm' => 'M' | 'n' => 'N' | 'o' => 'O' | 'p' => 'P' | 'q' => 'Q' | 'r' => 'R'
  | 's' => 'S' | 't' => 'T' | 'u' => 'U' | 'v' => 'V' | 'w' => 'W' | 'x' => 'X'
  | 'y' => 'Y' | 'z' => 'Z'
  | 'à' => 'À' | 'á' => 'Á' | 'â' => 'Â' | 'ã' => 'Ã' | 'ç' => 'Ç' | 'é' => 'É'
  | 'ê' => 'Ê' | 'í' => 'Í' | 'ó' => 'Ó' | 'ô' => 'Ô' | 'õ' => 'Õ' | 'ú' => 'Ú'
  | 'ü' => 'Ü'
  | _ => c

/-- Python `str.lower()` per character (used only to express "case variant" for
the case-insensitivity property). -/
def pyLowerCh (c : Char) : Char :=
  match c with
  | 'A' => 'a' | 'B' => 'b' | 'C' => 'c' | 'D' => 'd' | 'E' => 'e' | 'F' => 'f'
  | 'G' => 'g' | 'H' => 'h' | 'I' => 'i' | 'J' => 'j' | 'K' => 'k' | 'L' => 'l'
  | 'M' => 'm' | 'N' => 'n' | 'O' => 'o' | 'P' => 'p' | 'Q' => 'q' | 'R' => 'r'
  | 'S' => 's' | 'T' => 't' | 'U' => 'u' | 'V' => 'v' | 'W' => 'w' | 'X' => 'x'
  | 'Y' => 'y' | 'Z' => 'z'
  | 'À' => 'à' | 'Á' => 'á' | 'Â' => 'â' | 'Ã' => 'ã' | 'Ç' => 'ç' | 'É' => 'é'
  | 'Ê' => 'ê' | 'Í' => 'í' | 'Ó' => 'ó' | 'Ô' => 'ô' | 'Õ' => 'õ' | 'Ú' => 'ú'
  | 'Ü' => 'ü'
  | _ => c

/-- Function `normalize` of app.py (lines 66-68): NFKD decomposition, then drop the
combining code points. -/
def normalizeL (l : List Char) : List Char :=
  (l.flatMap nfkdChar).filter (fun c => !combiningB c)

def normalize (s : String) : String := String.mk (normalizeL s.data)

/-- Contribution of one character to `normalize(text).upper()`. -/
def normUpChar (c : Char) : List Char :=
  ((nfkdChar c).filter (fun x => !combiningB x)).map pyUpperCh

/-- Expression `normalize(text).upper()` (line 137 of app.py). -/
def normUpL (l : List Char) : List Char := (normalizeL l).map pyUpperCh

/-! ## Generic scanning helpers (Python `re` / `str` semantics) -/

/-- Python `\s` (ASCII part, the part exercised by the documents). -/
def isSpaceCh (c : Char) : Bool :=
  c == ' ' || c == '\t' || c == '\n' || c == '\r' || c == '\x0b' || c == '\x0c'

/-- Python `\w`: alphanumerics plus underscore (including the accented
letters of the repertoire). -/
def isWordChar (c : Char) : Bool :=
  c.isAlphanum || c == '_' ||
    (['À','Á','Â','Ã','Ç','É','Ê','Í','Ó','Ô','Õ','Ú','Ü',
      'à','á','â','ã','ç','é','ê','í','ó','ô','õ','ú','ü','º'].contains c)

/-- Boundary `\b` before a word-character pattern: previous char absent or non-word,
current char a word char. -/
def atBoundary : Option Char → Char → Bool
  | none, c => isWordChar c
  | some p, c => !isWordChar p && isWordChar c

/-- Boundary `\b` after a match: next char absent or non-word. -/
def nonWordOrEnd : List Char → Bool
  | [] => true
  | c :: _ => !isWordChar c

/-- ASCII lower-casing, for the `re.I` comparisons of the source. -/
def lowA (c : Char) : Char :=
  match c with
  | 'A' => 'a' | 'B' => 'b' | 'C' => 'c' | 'D' => 'd' | 'E' => 'e' | 'F' => 'f'
  | 'G' => 'g' | 'H' => 'h' | 'I' => 'i' | 'J' => 'j' | 'K' => 'k' | 'L' => 'l'
  | 'M' => 'm' | 'N' => 'n' | 'O' => 'o' | 'P' => 'p' | 'Q' => 'q' | 'R' => 'r'
  | 'S' => 's' | 'T' => 't' | 'U' => 'u' | 'V' => 'v' | 'W' => 'w' | 'X' => 'x'
  | 'Y' => 'y' | 'Z' => 'z'
  | _ => c

/-- Literal pattern at the head of the text. -/
def litAt : List Char → List Char → Bool
  | [], _ => true
  | _ :: _, [] => false
  | p :: ps, c :: cs => p == c && litAt ps cs

/-- Case-insensitive literal pattern at the head of the text. -/
def litAtCI : List Char → List Char → Bool
  | [], _ => true
  | _ :: _, [] => false
  | p :: ps, c :: cs => lowA p == lowA c && litAtCI ps cs

/-- Python `pat in s` (substring containment). -/
def containsSub : List Char → List Char → Bool
  | [], pat => pat.isEmpty
  | c :: cs, pat => litAt pat (c :: cs) || containsSub cs pat

/-- Python `re.search` of a predicate on positions: some suffix (including the
empty one) satisfies it. -/
def anyPos (p : List Char → Bool) : List Char → Bool
  | [] => p []
  | c :: cs => p (c :: cs) || anyPos p cs

/-- Numeric value of a digit string (`int(...)` / the integer part of
`float(...)`). -/
def digitsToNat (l : List Char) : Nat :=
  l.foldl (fun n c => 10 * n + (c.toNat - 48)) 0

/-- Python `str.strip()` (whitespace from both ends). -/
def stripWs (l : List Char) : List Char :=
  ((l.dropWhile isSpaceCh).reverse.dropWhile isSpaceCh).reverse

/-- Python `str.rfind(c)`: index of last occurrence, `-1` if absent. -/
def rfindPos (l : List Char) (c : Char) : Int :=
  match l with
  | [] => -1
  | a :: as =>
    let r := rfindPos as c
    if 0 ≤ r then r + 1 else if a = c then 0 else -1

/-! ## Numeric disambiguator (`try_parse_amount`, app.py lines 195-238) -/

/-- Python `float(...)` on the residual strings reachable in
`try_parse_amount` (digits and periods only): succeeds iff there is at
least one digit and at most one period. -/
def parseFloat (l : List Char) : Option ℚ :=
  if (∀ c ∈ l, c.isDigit = true ∨ c = '.') ∧ l.countP (fun c => c == '.') ≤ 1 ∧
      (∃ c ∈ l, c.isDigit = true) then
    let ip := l.takeWhile (fun c => c != '.')
    let fp := (l.dropWhile (fun c => c != '.')).drop 1
    some (mkRat (digitsToNat ip * 10 ^ fp.length + digitsToNat fp) (10 ^ fp.length))
  else none

/-- Function `try_parse_amount` (app.py lines 195-238): strip, drop spaces, keep
only digits `.` `,`, then decide the decimal separator by the rightmost
occurrence when both are present. -/
def try_parse_amount (s : String) : Option ℚ :=
  if s.data = [] then none
  else
    let cur0 := stripWs s.data
    let cur1 := cur0.filter (fun c => c != ' ')
    let cur := cur1.filter (fun c => c.isDigit || c == '.' || c == ',')
    if '.' ∈ cur ∧ ',' ∈ cur then
      if rfindPos cur ',' > rfindPos cur '.' then
        parseFloat ((cur.filter (fun c => c != '.')).map (fun c => if c = ',' then '.' else c))
      else
        parseFloat (cur.filter (fun c => c != ','))
    else if ',' ∈ cur ∧ '.' ∉ cur then
      parseFloat ((cur.filter (fun c => c != '.')).map (fun c => if c = ',' then '.' else c))
    else if '.' ∈ cur ∧ ',' ∉ cur then
      parseFloat (cur.filter (fun c => c != ','))
    else parseFloat cur

/-! ## Monetary candidates (`find_monetary_candidates`, app.py lines 177-193)

Pattern `(?:(?:\d{1,3}(?:[.\s]\d{3})*(?:[,\.\s]\d{1,2})?)|\d+[\.,]\d+)`:
since the first alternative succeeds at any position starting with a digit
and nothing follows the alternation, the second alternative is never used
by the backtracking engine. -/

def moneySepB (c : Char) : Bool := c == '.' || isSpaceCh c

def moneySepC (c : Char) : Bool := c == ',' || c == '.' || isSpaceCh c

/-- Greedy `(?:[.\s]\d{3})*`: returns (consumed, rest). -/
def moneyStar : List Char → List Char × List Char
  | c :: d1 :: d2 :: d3 :: rest =>
    if moneySepB c && d1.isDigit && d2.isDigit && d3.isDigit then
      let p := moneyStar rest
      (c :: d1 :: d2 :: d3 :: p.1, p.2)
    else ([], c :: d1 :: d2 :: d3 :: rest)
  | l => ([], l)

/-- Greedy `(?:[,\.\s]\d{1,2})?`: returns (consumed, rest). -/
def moneyOpt : List Char → List Char × List Char
  | c :: d1 :: rest =>
    if moneySepC c && d1.isDigit then
      match rest with
      | d2 :: rest2 =>
        if d2.isDigit then ([c, d1, d2], rest2) else ([c, d1], d2 :: rest2)
      | [] => ([c, d1], [])
    else ([], c :: d1 :: rest)
  | l => ([], l)

/-- Python `re.findall` scan of the monetary pattern (non-overlapping, leftmost). -/
def moneyScan : Nat → List Char → List (List Char)
  | 0, _ => []
  | _, [] => []
  | fuel + 1, c :: rest =>
    if c.isDigit then
      let d := ((c :: rest).takeWhile Char.isDigit).take 3
      let r1 := (c :: rest).drop d.length
      let p1 := moneyStar r1
      let p2 := moneyOpt p1.2
      (d ++ p1.1 ++ p2.1) :: moneyScan fuel p2.2
    else moneyScan fuel rest

/-- Order-preserving dedup of the stripped matches (`seen` list of the
source). -/
def dedupAux : List (List Char) → List (List Char) → List (List Char)
  | _, [] => []
  | seen, m :: rest =>
    if m = [] ∨ m ∈ seen then dedupAux seen rest
    else m :: dedupAux (m :: seen) rest

def find_monetary_candidates (s : String) : List String :=
  if s.data = [] then []
  else (dedupAux [] ((moneyScan s.data.length s.data).map stripWs)).map String.mk

/-! ## Identifier extraction (app.py lines 139-144)

Primary pattern `\b(?:NUM[EÉ]RO|N[ºO])\s*[:\-]?\s*(\d{8,})`, fallback
`\b(\d{10,15})\b`. -/

/-- Alternative `NUM[EÉ]RO`: consume the label, return the rest. -/
def numeroTail : List Char → Option (List Char)
  | 'N' :: 'U' :: 'M' :: e :: 'R' :: 'O' :: rest =>
    if e = 'E' ∨ e = 'É' then some rest else none
  | _ => none

/-- Alternative `N[ºO]`: consume the label, return the rest. -/
def noTail : List Char → Option (List Char)
  | 'N' :: o :: rest => if o = 'O' ∨ o = 'º' then some rest else none
  | _ => none

/-- Tail `\s*[:\-]?\s*(\d{8,})` after a label. -/
def labelTail (l : List Char) : Option (List Char) :=
  let l1 := l.dropWhile isSpaceCh
  let l2 := match l1 with
            | c :: r => if c = ':' ∨ c = '-' then r else l1
            | [] => l1
  let l3 := l2.dropWhile isSpaceCh
  let d := l3.takeWhile Char.isDigit
  if 8 ≤ d.length then some d else none

/-- Scan for the labelled identifier (leftmost match, `NUM[EÉ]RO` tried
before `N[ºO]` at each position, as the ordered alternation does). -/
def searchLabeledAux : Option Char → List Char → Option (List Char)
  | _, [] => none
  | prev, c :: rest =>
    let here : Option (List Char) :=
      if atBoundary prev c then
        match (numeroTail (c :: rest)).bind labelTail with
        | some d => some d
        | none => (noTail (c :: rest)).bind labelTail
      else none
    match here with
    | some d => some d
    | none => searchLabeledAux (some c) rest

/-- Scan for `\b(\d{10,15})\b`: a digit run of length 10-15 delimited by
word boundaries (longer runs never match: the trailing `\b` fails inside
the run for every backtracking choice). -/
def searchRunAux : Option Char → List Char → Option (List Char)
  | _, [] => none
  | prev, c :: rest =>
    let here : Option (List Char) :=
      if atBoundary prev c ∧ c.isDigit then
        let d := (c :: rest).takeWhile Char.isDigit
        if 10 ≤ d.length ∧ d.length ≤ 15 ∧ nonWordOrEnd ((c :: rest).drop d.length) then
          some d
        else none
      else none
    match here with
    | some d => some d
    | none => searchRunAux (some c) rest

/-! ## Destination resolution (app.py lines 146-172) -/

def rotaMap : List (String × String) :=
  [("S27", "CO RIO DE JANEIRO 05"), ("S28", "CO RIO DE JANEIRO 04"),
   ("S30", "CO RIO DE JANEIRO 01"), ("S32", "CO RIO DE JANEIRO 03"),
   ("S38", "CO RIO DE JANEIRO 06"), ("S41", "CO RIO DE JANEIRO 08"),
   ("S49", "CO RIO DE JANEIRO 07")]

def ufValidas : List String :=
  ["AC", "AL", "AM", "AP", "BA", "CE", "DF", "ES", "GO", "MA", "MG", "MS",
   "MT", "PA", "PB", "PE", "PI", "PR", "RJ", "RN", "RO", "RR", "RS",
   "SC", "SE", "SP", "TO"]

/-- After a boundary `S`: `\s*[-\/]?\s*0*([0-9]{1,2})\b`.  With run the
maximal digit run and z0 its leading zeros, the backtracking engine finds
a split `0*`-prefix / 1-2 digit group covering the whole run exactly when
`run.length - z0 ≤ 2`; `int(group)` then equals the run's value. -/
def rotaAfterS (rest : List Char) : Option Nat :=
  let l1 := rest.dropWhile isSpaceCh
  let l2 := match l1 with
            | c :: r => if c = '-' ∨ c = '/' then r else l1
            | [] => l1
  let l3 := l2.dropWhile isSpaceCh
  let run := l3.takeWhile Char.isDigit
  let z0 := (run.takeWhile (fun c => c == '0')).length
  if 1 ≤ run.length ∧ run.length - z0 ≤ 2 ∧ nonWordOrEnd (l3.drop run.length) = true then
    some (digitsToNat run)
  else none

/-- Scan for `\bS\s*[-\/]?\s*0*([0-9]{1,2})\b`. -/
def rotaSearchAux : Option Char → List Char → Option Nat
  | _, [] => none
  | prev, c :: rest =>
    let here : Option Nat :=
      if atBoundary prev c && c == 'S' then rotaAfterS rest else none
    match here with
    | some n => some n
    | none => rotaSearchAux (some c) rest

/-- Tier 1 (lines 149-153): detected `Sxx` code looked up in the table;
empty when the code is absent from the table or no code is found. -/
def tier1Dest (norm : List Char) : String :=
  match rotaSearchAux none norm with
  | some n => (rotaMap.lookup ("S" ++ toString n)).getD ""
  | none => ""

/-- Pattern `0*` followed by a digit literal, with the engine's backtracking over
the number of zeros consumed. -/
def zerosLit : List Char → List Char → Bool
  | pat, '0' :: r => litAt pat ('0' :: r) || zerosLit pat r
  | pat, l => litAt pat l

/-- One position of the tier-2 pattern `S\s*[-\/]?\s*0*<digits>` (no word
boundaries in this pattern). -/
def tier2At (digitsWanted : List Char) : List Char → Bool
  | 'S' :: rest =>
    let l1 := rest.dropWhile isSpaceCh
    let l2 := match l1 with
              | c :: r => if c = '-' ∨ c = '/' then r else l1
              | [] => l1
    zerosLit digitsWanted (l2.dropWhile isSpaceCh)
  | _ => false

/-- Tier 2 (lines 156-161): try each table key in insertion order. -/
def tier2Dest : List (String × String) → List Char → String
  | [], _ => ""
  | (k, v) :: rest, norm =>
    if anyPos (tier2At (k.data.drop 1)) norm then v else tier2Dest rest norm

/-- Tail `\s*-\s*([A-Z]{2})` after the lazy city group: returns (uf, rest). -/
def cityTail (l : List Char) : Option (List Char × List Char) :=
  match l.dropWhile isSpaceCh with
  | '-' :: l2 =>
    match l2.dropWhile isSpaceCh with
    | a :: b :: rest =>
      if 'A' ≤ a ∧ a ≤ 'Z' ∧ 'A' ≤ b ∧ b ≤ 'Z' then some ([a, b], rest) else none
    | _ => none
  | _ => none

/-- Character class `[A-ZÇÃÕÉÍÓÚÂÊÔÜ0-9 \.\-]` of the city group. -/
def cityClass (c : Char) : Bool :=
  ('A' ≤ c && c ≤ 'Z') || c.isDigit || c == ' ' || c == '.' || c == '-' ||
    (['Ç','Ã','Õ','É','Í','Ó','Ú','Â','Ê','Ô','Ü'].contains c)

/-- Lazy group `([A-Z...]+?)` at a position: grow one char at a time,
checking the tail after each extension; first success wins. -/
def cityGroup (acc : List Char) : List Char → Option (List Char × List Char × List Char)
  | c :: rest =>
    if cityClass c then
      match cityTail rest with
      | some (uf, r) => some (acc ++ [c], uf, r)
      | none => cityGroup (acc ++ [c]) rest
    else none
  | [] => none

/-- Python `re.finditer` of the city-UF pattern: leftmost, non-overlapping. -/
def findCityUFAux : Nat → List Char → List (List Char × List Char)
  | 0, _ => []
  | _, [] => []
  | fuel + 1, c :: rest =>
    match cityGroup [] (c :: rest) with
    | some (g, uf, r) => (g, uf) :: findCityUFAux fuel r
    | none => findCityUFAux fuel rest

def findCityUF (l : List Char) : List (List Char × List Char) :=
  findCityUFAux l.length l

def ufValid (uf : List Char) : Bool := ufValidas.contains (String.mk (uf.map pyUpperCh))

/-- Iterate the matches in reverse document order, picking the first with
a valid region code (lines 165-170). -/
def pickRev : List (List Char × List Char) → String
  | [] => ""
  | (cid, uf) :: rest =>
    if ufValid uf then
      String.mk ((stripWs cid).map pyUpperCh) ++ " - " ++ String.mk (uf.map pyUpperCh)
    else pickRev rest

/-- Tier 3 (lines 163-170): last `CIDADE - UF` candidate with a valid
region code. -/
def tier3Dest (l : List Char) : String := pickRev (findCityUF l).reverse

/-- Body of `extract_manifesto_destino_from_text`, on the already-normalized
upper-cased text. -/
def extract_core (norm : List Char) : String × String :=
  let manifesto :=
    match searchLabeledAux none norm with
    | some d => String.mk d
    | none =>
      match searchRunAux none norm with
      | some d => String.mk d
      | none => ""
  let d1 := tier1Dest norm
  let d2 := if d1 = "" then tier2Dest rotaMap norm else d1
  let d3 := if d2 = "" then tier3Dest norm else d2
  (manifesto, d3)

/-- Function `extract_manifesto_destino_from_text` (app.py lines 136-172). -/
def extract_manifesto_destino_from_text (s : String) : String × String :=
  extract_core (normUpL s.data)

/-! ## Date/time extraction (`extract_data_hora_from_head`, lines 118-131) -/

def monthAbbrevs : List (List Char × String) :=
  [(['j','a','n'], "01"), (['f','e','v'], "02"), (['m','a','r'], "03"),
   (['a','b','r'], "04"), (['m','a','i'], "05"), (['j','u','n'], "06"),
   (['j','u','l'], "07"), (['a','g','o'], "08"), (['s','e','t'], "09"),
   (['o','u','t'], "10"), (['n','o','v'], "11"), (['d','e','z'], "12")]

/-- Pattern `\s+`: at least one whitespace character, consumed greedily. -/
def wsPlus (l : List Char) : Option (List Char) :=
  match l with
  | c :: _ => if isSpaceCh c then some (l.dropWhile isSpaceCh) else none
  | [] => none

/-- Ordered, case-insensitive month alternation. -/
def monthScan : List (List Char × String) → List Char → Option (String × List Char)
  | [], _ => none
  | (ab, mm) :: rest, l =>
    if litAtCI ab l then some (mm, l.drop 3) else monthScan rest l

/-- Pattern for the four year digits. -/
def yearAt : List Char → Option (List Char × List Char)
  | a :: b :: c :: d :: r =>
    if a.isDigit && b.isDigit && c.isDigit && d.isDigit then some ([a, b, c, d], r)
    else none
  | _ => none

/-- Pattern for the `HH:MM:SS` time group. -/
def timeAt : List Char → Option (List Char)
  | h1 :: h2 :: ':' :: m1 :: m2 :: ':' :: s1 :: s2 :: _ =>
    if h1.isDigit && h2.isDigit && m1.isDigit && m2.isDigit && s1.isDigit && s2.isDigit then
      some [h1, h2, ':', m1, m2, ':', s1, s2]
    else none
  | _ => none

/-- Zero-padded two-digit day rendering of the source. -/
def pad2 (n : Nat) : String := if n < 10 then "0" ++ toString n else toString n

/-- After the day digits: `\s+ month \s+ (\d{4}) \s+ time`, assembled as
`f"{int(dia):02d}/{meses[mes]}/{ano}", hora`. -/
def dateTail (day : List Char) (l : List Char) : Option (String × String) :=
  match wsPlus l with
  | none => none
  | some l1 =>
    match monthScan monthAbbrevs l1 with
    | none => none
    | some (mm, l2) =>
      match wsPlus l2 with
      | none => none
      | some l3 =>
        match yearAt l3 with
        | none => none
        | some (yr, l4) =>
          match wsPlus l4 with
          | none => none
          | some l5 =>
            match timeAt l5 with
            | none => none
            | some tm =>
              some (pad2 (digitsToNat day) ++ "/" ++ mm ++ "/" ++ String.mk yr, String.mk tm)

/-- Day group with the engine's greedy-then-backtrack choice of the day
width. -/
def dateAtPos (l : List Char) : Option (String × String) :=
  match l with
  | a :: rest =>
    if a.isDigit then
      let try2 : Option (String × String) :=
        match rest with
        | b :: r2 => if b.isDigit then dateTail [a, b] r2 else none
        | [] => none
      match try2 with
      | some res => some res
      | none => dateTail [a] rest
    else none
  | [] => none

def searchDateAux : Option Char → List Char → Option (String × String)
  | _, [] => none
  | prev, c :: rest =>
    let here := if atBoundary prev c then dateAtPos (c :: rest) else none
    match here with
    | some r => some r
    | none => searchDateAux (some c) rest

/-- Function `extract_data_hora_from_head` (app.py lines 118-131): note the text is
normalized but not upper-cased; the pattern carries `re.I`. -/
def extract_data_hora_from_head (s : String) : String × String :=
  match searchDateAux none (normalizeL s.data) with
  | some r => r
  | none => ("", "")

/-! ## Per-page volume tiers (app.py lines 274-302) -/

/-- Tail `\s*[:\-]?\s*([0-9]{1,6})\b` after the volume label. -/
def volDigits (l : List Char) : Option Nat :=
  let l1 := l.dropWhile isSpaceCh
  let l2 := match l1 with
            | c :: r => if c = ':' ∨ c = '-' then r else l1
            | [] => l1
  let l3 := l2.dropWhile isSpaceCh
  let run := l3.takeWhile Char.isDigit
  if 1 ≤ run.length ∧ run.length ≤ 6 ∧ nonWordOrEnd (l3.drop run.length) = true then
    some (digitsToNat run)
  else none

/-- Label pattern of tier (a) at one position (case-insensitive).  When an `s`
follows the label the optional `S?` must consume it (backtracking to the
no-`s` branch leaves a word char after `VOLUME`, failing `\b`). -/
def volLabelAt (l : List Char) : Option Nat :=
  if litAtCI ['v','o','l','u','m','e'] l then
    match l.drop 6 with
    | c :: r2 =>
      if lowA c == 's' then
        if nonWordOrEnd r2 then volDigits r2 else none
      else if isWordChar c then none
      else volDigits (c :: r2)
    | [] => none
  else none

/-- Tier (a): `re.search(r"\bVOLUMES?\b\s*[:\-]?\s*([0-9]{1,6})\b", txt, re.I)`. -/
def tierAAux : Option Char → List Char → Option Nat
  | _, [] => none
  | prev, c :: rest =>
    let here := if atBoundary prev c then volLabelAt (c :: rest) else none
    match here with
    | some n => some n
    | none => tierAAux (some c) rest

/-- Tier (b) at one position: `\b([0-9]{1,5})\s*\.\s*[0-9]{1,3}\b`. -/
def tierBAt (l : List Char) : Option Nat :=
  match l with
  | c :: _ =>
    if c.isDigit then
      let run := l.takeWhile Char.isDigit
      if run.length ≤ 5 then
        match (l.drop run.length).dropWhile isSpaceCh with
        | '.' :: r2 =>
          let r3 := r2.dropWhile isSpaceCh
          let run2 := r3.takeWhile Char.isDigit
          if 1 ≤ run2.length ∧ run2.length ≤ 3 ∧ nonWordOrEnd (r3.drop run2.length) = true then
            some (digitsToNat run)
          else none
        | _ => none
      else none
    else none
  | [] => none

def tierBAux : Option Char → List Char → Option Nat
  | _, [] => none
  | prev, c :: rest =>
    let here := if atBoundary prev c then tierBAt (c :: rest) else none
    match here with
    | some n => some n
    | none => tierBAux (some c) rest

/-- Tier (c): `re.search(r"^\s*([0-9]{1,4})\b", txt)` — anchored at the
start of the page text (no `re.M`). -/
def tierC (l : List Char) : Option Nat :=
  let l1 := l.dropWhile isSpaceCh
  match l1 with
  | c :: _ =>
    if c.isDigit then
      let run := l1.takeWhile Char.isDigit
      if run.length ≤ 4 ∧ nonWordOrEnd (l1.drop run.length) = true then
        some (digitsToNat run)
      else none
    else none
  | [] => none

/-- Contribution of one page to the volume total (lines 274-302): the
three tiers in priority order; tier (c) only counts inside the
plausibility range `0 < n < 5000`. -/
def pageVolume (txt : String) : Nat :=
  match tierAAux none txt.data with
  | some n => n
  | none =>
    match tierBAux none txt.data with
    | some n => n
    | none =>
      match tierC txt.data with
      | some n => if 0 < n ∧ n < 5000 then n else 0
      | none => 0

/-- Sum of per-page contributions over all pages (the loop of line 263). -/
def aggregateVolumes (pages : List String) : Nat := (pages.map pageVolume).sum

/-! ## Monetary-total selection (app.py lines 307-377) -/

/-- Python `str.splitlines()` / `str.split("\n")`, modelled as splitting on the
newline character. -/
def splitOnNl : List Char → List (List Char)
  | [] => [[]]
  | c :: rest =>
    let r := splitOnNl rest
    if c = '\n' then [] :: r
    else (c :: r.headD []) :: r.tail

def splitLines (s : String) : List String := (splitOnNl s.data).map String.mk

/-- Python `"\n".join(pages_txt)` (line 254). -/
def joinNl : List String → List Char
  | [] => []
  | [p] => p.data
  | p :: rest => p.data ++ '\n' :: joinNl rest

/-- Search `re.search(r"VALOR\s+TOTAL", line, re.I)` at one position. -/
def valorTotalAt (l : List Char) : Bool :=
  litAtCI ['v','a','l','o','r'] l &&
    (match l.drop 5 with
     | c :: r => isSpaceCh c && litAtCI ['t','o','t','a','l'] ((c :: r).dropWhile isSpaceCh)
     | [] => false)

/-- Search `re.search(r"VALOR\s+TOTAL\s+DO", line, re.I)` at one position. -/
def valorTotalDoAt (l : List Char) : Bool :=
  litAtCI ['v','a','l','o','r'] l &&
    (match l.drop 5 with
     | c :: r =>
       isSpaceCh c &&
         (let l2 := ((c :: r).dropWhile isSpaceCh)
          litAtCI ['t','o','t','a','l'] l2 &&
            (match l2.drop 5 with
             | c2 :: r2 => isSpaceCh c2 && litAtCI ['d','o'] ((c2 :: r2).dropWhile isSpaceCh)
             | [] => false))
     | [] => false)

/-- Search `re.search(r"VALOR\s*:", line, re.I)` at one position. -/
def valorColonAt (l : List Char) : Bool :=
  litAtCI ['v','a','l','o','r'] l &&
    (match (l.drop 5).dropWhile isSpaceCh with
     | ':' :: _ => true
     | _ => false)

/-- Line filter of the native tier (line 327). -/
def valorLineNative (l : List Char) : Bool :=
  anyPos valorTotalAt l || anyPos valorTotalDoAt l || anyPos valorColonAt l

/-- Line filter of the OCR tier (line 340). -/
def valorLineOcr (l : List Char) : Bool :=
  anyPos valorTotalAt l || anyPos valorColonAt l

/-- Candidate gathering from native last-page text (lines 322-331). -/
def gatherNative (lt : String) : List String :=
  if lt.data = [] then []
  else
    let fromLines :=
      (splitLines lt).flatMap fun line =>
        if valorLineNative line.data then find_monetary_candidates line else []
    if fromLines = [] then find_monetary_candidates lt else fromLines

/-- Candidate gathering from the OCR of the last page (lines 334-345). -/
def gatherOcr (txt : String) : List String :=
  let fromLines :=
    (splitLines txt).flatMap fun line =>
      if valorLineOcr line.data then find_monetary_candidates line else []
  if fromLines = [] then find_monetary_candidates txt else fromLines

/-- Python `max(l, key=second)`: first maximum on ties. -/
def pymaxQ : List (String × ℚ) → Option (String × ℚ)
  | [] => none
  | x :: xs => some (xs.foldl (fun b a => if b.2 < a.2 then a else b) x)

/-- The `valor_pref` list (lines 356-362): one copy of each parsed
candidate per line of `last_text` that contains it together with `VALOR`
(guarded by `if last_text:`). -/
def prefList (parsed : List (String × ℚ)) (last_text : String) : List (String × ℚ) :=
  if last_text.data = [] then []
  else
    parsed.flatMap fun p =>
      ((splitLines last_text).filter fun line =>
          containsSub line.data p.1.data && anyPos (litAtCI ['v','a','l','o','r']) line.data).map
        fun _ => p

/-- The `parsed` list (lines 348-352): the candidates that parse, paired
with their values, in candidate order. -/
def parsedOf (candidates : List String) : List (String × ℚ) :=
  candidates.filterMap fun s => (try_parse_amount s).map fun v => (s, v)

/-- Candidate interpretation and selection (lines 347-368): keep the
candidates that parse, prefer those appearing on a line of `last_text`
containing `VALOR`, and take the maximum value. -/
def choose_value (candidates : List String) (last_text : String) : Option ℚ :=
  match pymaxQ (prefList (parsedOf candidates) last_text) with
  | some p => some p.2
  | none =>
    match pymaxQ (parsedOf candidates) with
    | some p => some p.2
    | none => none

/-- Rounding of `f"{v:,.2f}"`, idealized on exact rationals (half-even). -/
def roundHE (x : ℚ) : ℤ :=
  let f := ⌊x⌋
  let r := x - f
  if r < 1 / 2 then f
  else if 1 / 2 < r then f + 1
  else if f % 2 = 0 then f else f + 1

/-- Thousands grouping (input: reversed digit list). -/
def groupAux : List Char → List Char
  | a :: b :: c :: d :: rest => a :: b :: c :: '.' :: groupAux (d :: rest)
  | l => l

def groupThousands (l : List Char) : List Char := (groupAux l.reverse).reverse

/-- Brazilian display formatting of the chosen value (line 374):
`f"{v:,.2f}"` with `,`/`.` swapped. -/
def formatBR (v : ℚ) : String :=
  let n := roundHE (v * 100)
  let m := n.natAbs
  let ip := m / 100
  let fp := m % 100
  (if n < 0 then "-" else "") ++ String.mk (groupThousands (Nat.toDigits 10 ip)) ++ "," ++
    String.mk (if fp < 10 then '0' :: Nat.toDigits 10 fp else Nat.toDigits 10 fp)

/-! ## Per-document orchestration (`process_pdf`, app.py lines 243-404)

The external collaborators are inputs of the model: `pages_txt` is the
native per-page text (pdfplumber) and `ocr_pages` the per-page OCR text
(`ocr_page_quick` of the preprocessed rasterized pages).  The separate
re-extraction of the last native page at line 315 is deterministic and
modelled as `pages_txt.getLastD ""`, and `images[-1]` failing on an empty
document is modelled by `ocr_pages.getLastD ""` (the exception handler
yields the same empty candidates / empty text). -/

structure PdfOut where
  manifesto : String
  data : String
  destino : String
  valorQ : Option ℚ
  valor : String
  volumes : String

/-- Destination fallback by OCR of the last page (lines 379-392): same
city-UF selection, on the raw OCR text. -/
def ocrDestFallback (txt : String) : String :=
  if txt.data = [] then "" else tier3Dest txt.data

def process_pdf_model (pages_txt : List String) (ocr_pages : List String) : PdfOut :=
  let step1 : String × String × String :=
    match pages_txt with
    | [] => ("", "", "")
    | p0 :: _ =>
      let dh := extract_data_hora_from_head p0
      let md := extract_manifesto_destino_from_text (String.mk (joinNl pages_txt))
      (dh.1, md.1, md.2)
  let total_volumes := aggregateVolumes ocr_pages
  let volumes := if 0 < total_volumes then toString total_volumes else ""
  let last_text := pages_txt.getLastD ""
  let cands0 := gatherNative last_text
  let cands := if cands0 = [] then gatherOcr (ocr_pages.getLastD "") else cands0
  let vq := choose_value cands last_text
  let valor := match vq with
               | some v => formatBR v
               | none => ""
  let destino :=
    if step1.2.2 = "" then ocrDestFallback (ocr_pages.getLastD "") else step1.2.2
  { manifesto := step1.2.1, data := step1.1, destino := destino,
    valorQ := vq, valor := valor, volumes := volumes }

/-- Per-character "case variant" relation: each character is kept, or
replaced by its `str.upper()` or `str.lower()` image. -/
def caseVariantB : List Char → List Char → Bool
  | [], [] => true
  | a :: as, b :: bs =>
    (b == a || b == pyUpperCh a || b == pyLowerCh a) && caseVariantB as bs
  | _, _ => false

/-! ## Lemmas about the character model -/

/-- Every character produced by a decomposition decomposes to itself. -/
theorem nfkd_mem (c c' : Char) (h : c' ∈ nfkdChar c) : nfkdChar c' = [c'] := by
  rw [nfkdChar.eq_def] at h
  split at h <;>
    simp only [List.mem_cons, List.mem_singleton, List.not_mem_nil, or_false] at h <;>
    first
      | (rcases h with rfl | rfl <;> rfl)
      | (subst h; rfl)
      | (subst h; rw [nfkdChar.eq_def]; split <;> simp_all)

theorem normalizeL_mem (l : List Char) (c : Char) (h : c ∈ normalizeL l) :
    nfkdChar c = [c] ∧ combiningB c = false := by
  unfold normalizeL at h
  rw [List.mem_filter] at h
  obtain ⟨h1, h2⟩ := h
  rw [List.mem_flatMap] at h1
  obtain ⟨a, _, hm⟩ := h1
  exact ⟨nfkd_mem a c hm, by simpa using h2⟩

theorem normalizeL_fixed (l : List Char)
    (h : ∀ c ∈ l, nfkdChar c = [c] ∧ combiningB c = false) : normalizeL l = l := by
  induction l with
  | nil => rfl
  | cons a t ih =>
    have ha := h a (List.mem_cons_self a t)
    have ht := ih fun c hc => h c (List.mem_cons_of_mem a hc)
    unfold normalizeL at ht ⊢
    rw [List.flatMap_cons, List.filter_append, ha.1, ht]
    simp [List.filter_cons, ha.2]

theorem normalizeL_idem (l : List Char) : normalizeL (normalizeL l) = normalizeL l :=
  normalizeL_fixed _ (fun c hc => normalizeL_mem l c hc)

theorem normUpChar_upper (c : Char) : normUpChar (pyUpperCh c) = normUpChar c := by
  rw [pyUpperCh.eq_def]
  split <;> rfl

theorem normUpChar_lower (c : Char) : normUpChar (pyLowerCh c) = normUpChar c := by
  rw [pyLowerCh.eq_def]
  split <;> rfl

theorem normUpL_cons (a : Char) (t : List Char) :
    normUpL (a :: t) = normUpChar a ++ normUpL t := by
  unfold normUpL normalizeL normUpChar
  rw [List.flatMap_cons, List.filter_append, List.map_append]

theorem normUpL_caseVariant : ∀ l1 l2, caseVariantB l1 l2 = true → normUpL l1 = normUpL l2 := by
  intro l1
  induction l1 with
  | nil =>
    intro l2 h
    cases l2 with
    | nil => rfl
    | cons b bs => simp [caseVariantB] at h
  | cons a as ih =>
    intro l2 h
    cases l2 with
    | nil => simp [caseVariantB] at h
    | cons b bs =>
      rw [caseVariantB, Bool.and_eq_true] at h
      obtain ⟨h1, h2⟩ := h
      rw [normUpL_cons, normUpL_cons, ih bs h2]
      congr 1
      rw [Bool.or_eq_true, Bool.or_eq_true] at h1
      rcases h1 with (h1 | h1) | h1 <;> rw [beq_iff_eq] at h1 <;> subst h1
      · rfl
      · exact (normUpChar_upper a).symm
      · exact (normUpChar_lower a).symm

/-! ## Claim theorems -/

/-- C8: the text normalizer is idempotent — for every input string,
including strings with no diacritics, `normalize (normalize x) =
normalize x`; and empty input yields empty output (the `s or ""` guard
makes null behave as the empty string). -/
theorem C8_normalize_idempotent :
    (∀ s : String, normalize (normalize s) = normalize s) ∧ normalize "" = "" := by
  constructor
  · intro s
    show String.mk (normalizeL (normalizeL s.data)) = String.mk (normalizeL s.data)
    rw [normalizeL_idem]
  · rfl

/-- C10: identifier and destination extraction are letter-case
insensitive — the extraction returns the same pair on any per-character
case variant of the text, because the input is upper-cased after
diacritic stripping before any pattern matching. -/
theorem C10_case_insensitive (s t : String) (h : caseVariantB s.data t.data = true) :
    extract_manifesto_destino_from_text s = extract_manifesto_destino_from_text t := by
  unfold extract_manifesto_destino_from_text
  rw [normUpL_caseVariant s.data t.data h]

theorem C10_case_insensitive_witness :
    extract_manifesto_destino_from_text "Numero: 123456789" =
      extract_manifesto_destino_from_text "NUMERO: 123456789" :=
  C10_case_insensitive _ _ (by decide)

/-! ## C1: destination candidate selection -/

/-- The recipient/address context keywords named by the specification
(terms meaning recipient, shipment, tax-id, street, avenue, warehouse,
highway, address). -/
def contextKeywords : List String :=
  ["DESTINATARIO", "REMESSA", "CNPJ", "RUA", "AVENIDA", "GALPAO", "RODOVIA", "ENDERECO"]

/-- A document whose first city-UF candidate (`SAO PAULO - SP`) sits in a
context window containing the given keyword on the immediately preceding
line, and whose last candidate (`RIO DE JANEIRO - RJ`) has no keyword in
its window. -/
def ctxDoc (kw : String) : String :=
  kw ++ ":\nSAO PAULO - SP\nROTA VIA\nRIO DE JANEIRO - RJ\n"

/-- C1 counterexample: on a document where the earlier candidate
`SAO PAULO - SP` is contextually qualified (keyword `DESTINATARIO` in its
window) and the later `RIO DE JANEIRO - RJ` is not, the code returns the
positionally-last candidate, not the context-qualified first one the
claim prescribes. -/
theorem C1_counterexample :
    (extract_manifesto_destino_from_text (ctxDoc "DESTINATARIO")).2 = "RIO DE JANEIRO - RJ" ∧
      ("RIO DE JANEIRO - RJ" : String) ≠ "SAO PAULO - SP" := by
  constructor
  · decide
  · decide

/-- C1 amended: destination resolution ignores context keywords entirely —
for every recipient/address keyword placed in the window of the earlier
candidate, the positionally-last candidate with a valid region code is
returned. -/
theorem C1_amended_last_candidate (kw : String) (h : kw ∈ contextKeywords) :
    (extract_manifesto_destino_from_text (ctxDoc kw)).2 = "RIO DE JANEIRO - RJ" := by
  fin_cases h <;> decide

theorem C1_amended_witness :
    (extract_manifesto_destino_from_text (ctxDoc "REMESSA")).2 = "RIO DE JANEIRO - RJ" :=
  C1_amended_last_candidate "REMESSA" (by decide)

/-! ## C4: identifier length bounds -/

theorem labelTail_spec (l d : List Char) (h : labelTail l = some d) :
    8 ≤ d.length ∧ ∀ c ∈ d, c.isDigit = true := by
  simp only [labelTail] at h
  split at h
  · obtain rfl : _ = d := Option.some.inj h
    constructor
    · assumption
    · intro c hc
      exact List.mem_takeWhile_imp hc
  · exact absurd h (by simp)

theorem searchLabeledAux_spec :
    ∀ (l : List Char) (prev : Option Char) (d : List Char),
      searchLabeledAux prev l = some d → 8 ≤ d.length ∧ ∀ c ∈ d, c.isDigit = true := by
  intro l
  induction l with
  | nil => intro prev d h; simp [searchLabeledAux] at h
  | cons c rest ih =>
    intro prev d h
    rw [searchLabeledAux] at h
    split at h
    · rename_i heq
      obtain rfl : _ = d := Option.some.inj h
      split at heq
      · split at heq
        · rename_i hn
          rw [Option.bind_eq_some] at hn
          obtain ⟨r, _, hr⟩ := hn
          exact labelTail_spec r _ (hr.trans heq)
        · rw [Option.bind_eq_some] at heq
          obtain ⟨r, _, hr⟩ := heq
          exact labelTail_spec r _ hr
      · exact absurd heq (by simp)
    · exact ih (some c) d h

theorem searchRunAux_spec :
    ∀ (l : List Char) (prev : Option Char) (d : List Char),
      searchRunAux prev l = some d →
      10 ≤ d.length ∧ d.length ≤ 15 ∧ ∀ c ∈ d, c.isDigit = true := by
  intro l
  induction l with
  | nil => intro prev d h; simp [searchRunAux] at h
  | cons c rest ih =>
    intro prev d h
    rw [searchRunAux] at h
    split at h
    · rename_i heq
      rw [← Option.some.inj h]
      split at heq
      · simp only [] at heq
        split at heq
        · rename_i hcond
          obtain rfl := Option.some.inj heq
          exact ⟨hcond.1, hcond.2.1, fun c hc => List.mem_takeWhile_imp hc⟩
        · exact absurd heq (by simp)
      · exact absurd heq (by simp)
    · exact ih (some c) d h

/-- C4 counterexample: with a labelled digit run of 16 digits, identifier
extraction returns all 16 digits — the claimed upper bound of 15 does not
hold for the labelled primary pattern (`\d{8,}` is unbounded). -/
theorem C4_counterexample :
    (extract_manifesto_destino_from_text "NUMERO: 1234567890123456").1 = "1234567890123456" ∧
      15 < ("1234567890123456" : String).length := by
  constructor
  · decide
  · decide

/-- C4 amended: identifier extraction never returns fewer than 8 digits
(and always returns digits); the standalone-run fallback alone is bounded
by 10-15 digits; but the labelled pattern has no upper bound.  On a text
with both a 6-digit and a 12-digit run, only the 12-digit run is
returned. -/
theorem C4_amended_bounds :
    (∀ t : String, (extract_manifesto_destino_from_text t).1 ≠ "" →
        8 ≤ (extract_manifesto_destino_from_text t).1.length ∧
          ∀ c ∈ (extract_manifesto_destino_from_text t).1.data, c.isDigit = true)
  ∧ (∀ t : String, searchLabeledAux none (normUpL t.data) = none →
        (extract_manifesto_destino_from_text t).1 ≠ "" →
        10 ≤ (extract_manifesto_destino_from_text t).1.length ∧
          (extract_manifesto_destino_from_text t).1.length ≤ 15)
  ∧ extract_manifesto_destino_from_text "TEL: 123456 REF 123456789012 FIM" =
      ("123456789012", "") := by
  refine ⟨?_, ?_, by decide⟩
  · intro t hne
    unfold extract_manifesto_destino_from_text extract_core at hne ⊢
    cases h1 : searchLabeledAux none (normUpL t.data) with
    | some d =>
      simp only [h1]
      exact ⟨(searchLabeledAux_spec _ _ _ h1).1, (searchLabeledAux_spec _ _ _ h1).2⟩
    | none =>
      cases h2 : searchRunAux none (normUpL t.data) with
      | some d =>
        simp only [h1, h2]
        have hs := searchRunAux_spec _ _ _ h2
        exact ⟨le_trans (by norm_num) hs.1, hs.2.2⟩
      | none => simp [h1, h2] at hne
  · intro t h1 hne
    unfold extract_manifesto_destino_from_text extract_core at hne ⊢
    cases h2 : searchRunAux none (normUpL t.data) with
    | some d =>
      simp only [h1, h2]
      have hs := searchRunAux_spec _ _ _ h2
      exact ⟨hs.1, hs.2.1⟩
    | none => simp [h1, h2] at hne

/-! ## C5/C9: numeric disambiguator -/

theorem foldl_digits_shift (b : List Char) :
    ∀ n : Nat, b.foldl (fun n c => 10 * n + (c.toNat - 48)) n =
      n * 10 ^ b.length + b.foldl (fun n c => 10 * n + (c.toNat - 48)) 0 := by
  induction b with
  | nil => intro n; simp
  | cons c t ih =>
    intro n
    simp only [List.foldl_cons, List.length_cons]
    rw [ih (10 * n + (c.toNat - 48)), ih (10 * 0 + (c.toNat - 48))]
    ring

theorem digitsToNat_append (a b : List Char) :
    digitsToNat (a ++ b) = digitsToNat a * 10 ^ b.length + digitsToNat b := by
  unfold digitsToNat
  rw [List.foldl_append, foldl_digits_shift]

theorem digit_ne_dot (c : Char) (h : c.isDigit = true) : c ≠ '.' := by
  intro he; subst he; exact absurd h (by decide)

theorem digit_ne_comma (c : Char) (h : c.isDigit = true) : c ≠ ',' := by
  intro he; subst he; exact absurd h (by decide)

theorem digit_not_space (c : Char) (h : c.isDigit = true) : isSpaceCh c = false := by
  by_contra hc
  rw [Bool.not_eq_false] at hc
  unfold isSpaceCh at hc
  simp only [Bool.or_eq_true, beq_iff_eq] at hc
  rcases hc with ((((rfl | rfl) | rfl) | rfl) | rfl) | rfl <;> exact absurd h (by decide)

/-- Value of `float(...)` on `intDigits ++ "." ++ fracDigits`. -/
theorem parseFloat_split (a b : List Char) (ha : ∀ c ∈ a, c.isDigit = true)
    (hb : ∀ c ∈ b, c.isDigit = true) (hbne : b ≠ []) :
    parseFloat (a ++ '.' :: b) = some ((digitsToNat (a ++ b) : ℚ) / 10 ^ b.length) := by
  obtain ⟨b0, brest, rfl⟩ : ∃ b0 brest, b = b0 :: brest := by
    cases b with
    | nil => exact absurd rfl hbne
    | cons b0 brest => exact ⟨b0, brest, rfl⟩
  have hcond : (∀ c ∈ a ++ '.' :: b0 :: brest, c.isDigit = true ∨ c = '.') ∧
      (a ++ '.' :: b0 :: brest).countP (fun c => c == '.') ≤ 1 ∧
      (∃ c ∈ a ++ '.' :: b0 :: brest, c.isDigit = true) := by
    refine ⟨?_, ?_, ⟨b0, ?_, hb b0 (List.mem_cons_self _ _)⟩⟩
    · intro c hc
      rcases List.mem_append.mp hc with h | h
      · exact Or.inl (ha c h)
      · rcases List.mem_cons.mp h with rfl | h
        · exact Or.inr rfl
        · exact Or.inl (hb c h)
    · rw [List.countP_append]
      have h1 : a.countP (fun c => c == '.') = 0 := by
        rw [List.countP_eq_zero]
        intro c hc
        simp only [beq_iff_eq]
        exact digit_ne_dot c (ha c hc)
      have h2 : ((('.') :: b0 :: brest).countP (fun c => c == '.')) = 1 := by
        rw [List.countP_cons_of_pos _ _ (by simp)]
        rw [List.countP_eq_zero.mpr]
        intro c hc
        simp only [beq_iff_eq]
        exact digit_ne_dot c (hb c hc)
      omega
    · exact List.mem_append_right _ (List.mem_cons_of_mem _ (List.mem_cons_self _ _))
  have htake : (a ++ '.' :: b0 :: brest).takeWhile (fun c => c != '.') = a := by
    rw [List.takeWhile_append_of_pos
        (fun c hc => by simpa [bne_iff_ne] using digit_ne_dot c (ha c hc))]
    rw [List.takeWhile_cons_of_neg (by simp)]
    simp
  have hdrop : (a ++ '.' :: b0 :: brest).dropWhile (fun c => c != '.') = '.' :: b0 :: brest := by
    rw [List.dropWhile_append_of_pos
        (fun c hc => by simpa [bne_iff_ne] using digit_ne_dot c (ha c hc))]
    rw [List.dropWhile_cons_of_neg (by simp)]
  unfold parseFloat
  rw [if_pos hcond]
  rw [htake, hdrop]
  simp only [List.drop_succ_cons, List.drop_zero]
  rw [digitsToNat_append, Rat.mkRat_eq_divInt, Rat.divInt_eq_div]
  push_cast
  have h10 : ((10 : ℚ) ^ (b0 :: brest).length) ≠ 0 := by positivity
  field_simp

theorem ne_space_of_not_spaceCh (c : Char) (h : isSpaceCh c = false) : (c != ' ') = true := by
  rw [bne_iff_ne]
  intro he
  subst he
  exact absurd h (by decide)

theorem dropWhile_of_none (p : Char → Bool) (l : List Char)
    (h : ∀ c ∈ l, p c = false) : l.dropWhile p = l := by
  cases l with
  | nil => rfl
  | cons a t =>
    rw [List.dropWhile_cons_of_neg]
    simp [h a (List.mem_cons_self a t)]

theorem stripWs_of_nospace (l : List Char) (h : ∀ c ∈ l, isSpaceCh c = false) :
    stripWs l = l := by
  unfold stripWs
  rw [dropWhile_of_none _ _ h,
      dropWhile_of_none _ _ (fun c hc => h c (List.mem_reverse.mp hc)),
      List.reverse_reverse]

/-- On strings over the alphabet of digits, `.` and `,`, the preamble of
`try_parse_amount` (strip, space removal, `re.sub`) is the identity, and
the function reduces to its separator dispatch. -/
theorem try_parse_amount_clean (l : List Char)
    (halpha : ∀ c ∈ l, c.isDigit = true ∨ c = '.' ∨ c = ',') :
    try_parse_amount (String.mk l) =
      (if '.' ∈ l ∧ ',' ∈ l then
        if rfindPos l ',' > rfindPos l '.' then
          parseFloat ((l.filter (fun c => c != '.')).map (fun c => if c = ',' then '.' else c))
        else parseFloat (l.filter (fun c => c != ','))
      else if ',' ∈ l ∧ '.' ∉ l then
        parseFloat ((l.filter (fun c => c != '.')).map (fun c => if c = ',' then '.' else c))
      else if '.' ∈ l ∧ ',' ∉ l then parseFloat (l.filter (fun c => c != ','))
      else parseFloat l) := by
  have hns : ∀ c ∈ l, isSpaceCh c = false := by
    intro c hc
    rcases halpha c hc with h | rfl | rfl
    · exact digit_not_space c h
    · decide
    · decide
  have h0 : stripWs l = l := stripWs_of_nospace l hns
  have h1 : l.filter (fun c => c != ' ') = l := by
    rw [List.filter_eq_self]
    exact fun c hc => ne_space_of_not_spaceCh c (hns c hc)
  have h2 : l.filter (fun c => c.isDigit || c == '.' || c == ',') = l := by
    rw [List.filter_eq_self]
    intro c hc
    rcases halpha c hc with h | rfl | rfl
    · simp [h]
    · simp
    · simp
  cases l with
  | nil => rfl
  | cons a t =>
    show try_parse_amount (String.mk (a :: t)) = _
    unfold try_parse_amount
    rw [if_neg (by simp)]
    simp only []
    rw [h0, h1, h2]

theorem rfindPos_neg (l : List Char) (c : Char) (h : c ∉ l) : rfindPos l c = -1 := by
  induction l with
  | nil => rfl
  | cons a t ih =>
    have h1 : c ∉ t := fun hc => h (List.mem_cons_of_mem a hc)
    have h2 : ¬a = c := fun he => h (he ▸ List.mem_cons_self a t)
    rw [rfindPos]
    simp [ih h1, h2]

theorem rfindPos_lt (l : List Char) (c : Char) : rfindPos l c < (l.length : Int) := by
  induction l with
  | nil => simp [rfindPos]
  | cons a t ih =>
    rw [rfindPos]
    simp only [List.length_cons]
    split
    · push_cast; omega
    · split <;> push_cast <;> omega

theorem rfindPos_append_left (a b : List Char) (c : Char) (h : c ∉ b) :
    rfindPos (a ++ b) c = rfindPos a c := by
  induction a with
  | nil => simp [rfindPos, rfindPos_neg b c h]
  | cons x xs ih =>
    rw [List.cons_append, rfindPos, rfindPos]
    simp [ih]

theorem rfindPos_append_cons_self (x y : List Char) (c : Char) (h : c ∉ y) :
    rfindPos (x ++ c :: y) c = (x.length : Int) := by
  induction x with
  | nil =>
    rw [List.nil_append, rfindPos]
    simp [rfindPos_neg y c h]
  | cons a t ih =>
    rw [List.cons_append, rfindPos]
    simp only [ih]
    rw [if_pos (by positivity)]
    simp only [List.length_cons]
    push_cast
    ring

theorem map_id_of (f : Char → Char) (l : List Char) (h : ∀ c ∈ l, f c = c) :
    l.map f = l := by
  induction l with
  | nil => rfl
  | cons a t ih =>
    rw [List.map_cons, h a (List.mem_cons_self a t),
        ih (fun c hc => h c (List.mem_cons_of_mem a hc))]

theorem C5_comma_decimal (x y : List Char)
    (hx : ∀ c ∈ x, c.isDigit = true ∨ c = '.') (hy : ∀ c ∈ y, c.isDigit = true)
    (hyne : y ≠ []) (hdx : '.' ∈ x) :
    try_parse_amount (String.mk (x ++ ',' :: y)) =
      some ((digitsToNat (x.filter (fun c => c.isDigit) ++ y) : ℚ) / 10 ^ y.length) := by
  have halpha : ∀ c ∈ x ++ ',' :: y, c.isDigit = true ∨ c = '.' ∨ c = ',' := by
    intro c hc
    rcases List.mem_append.mp hc with h | h
    · rcases hx c h with h | rfl
      · exact Or.inl h
      · exact Or.inr (Or.inl rfl)
    · rcases List.mem_cons.mp h with rfl | h
      · exact Or.inr (Or.inr rfl)
      · exact Or.inl (hy c h)
  rw [try_parse_amount_clean _ halpha]
  have hcy : ',' ∉ y := fun hc => absurd (hy ',' hc) (by decide)
  have hdcy : '.' ∉ ',' :: y := by
    intro hc
    rcases List.mem_cons.mp hc with h | h
    · exact absurd h (by decide)
    · exact absurd (hy '.' h) (by decide)
  rw [if_pos ⟨List.mem_append_left _ hdx, List.mem_append_right _ (List.mem_cons_self _ _)⟩]
  rw [if_pos (by
    rw [rfindPos_append_cons_self x y ',' hcy, rfindPos_append_left x _ '.' hdcy]
    exact rfindPos_lt x '.')]
  have hfilter : (x ++ ',' :: y).filter (fun c => c != '.') =
      x.filter (fun c => c.isDigit) ++ ',' :: y := by
    rw [List.filter_append]
    congr 1
    · refine List.filter_congr ?_
      intro c hc
      rcases hx c hc with h | rfl
      · rw [h]
        simp only [bne_iff_ne, ne_eq, eq_iff_iff, iff_true]
        exact digit_ne_dot c h
      · decide
    · rw [List.filter_cons_of_pos (by decide)]
      congr 1
      rw [List.filter_eq_self]
      intro c hc
      simpa [bne_iff_ne] using digit_ne_dot c (hy c hc)
  rw [hfilter]
  have hmap : (x.filter (fun c => c.isDigit) ++ ',' :: y).map
        (fun c => if c = ',' then '.' else c) =
      x.filter (fun c => c.isDigit) ++ '.' :: y := by
    rw [List.map_append, List.map_cons]
    congr 1
    · refine map_id_of _ _ ?_
      intro c hc
      have hd := (List.mem_filter.mp hc).2
      simp [digit_ne_comma c hd]
    · congr 1
      refine map_id_of _ _ ?_
      intro c hc
      simp [digit_ne_comma c (hy c hc)]
  rw [hmap]
  exact parseFloat_split _ y (fun c hc => (List.mem_filter.mp hc).2) hy hyne

theorem C5_dot_decimal (x y : List Char)
    (hx : ∀ c ∈ x, c.isDigit = true ∨ c = ',') (hy : ∀ c ∈ y, c.isDigit = true)
    (hyne : y ≠ []) (hcx : ',' ∈ x) :
    try_parse_amount (String.mk (x ++ '.' :: y)) =
      some ((digitsToNat (x.filter (fun c => c.isDigit) ++ y) : ℚ) / 10 ^ y.length) := by
  have halpha : ∀ c ∈ x ++ '.' :: y, c.isDigit = true ∨ c = '.' ∨ c = ',' := by
    intro c hc
    rcases List.mem_append.mp hc with h | h
    · rcases hx c h with h | rfl
      · exact Or.inl h
      · exact Or.inr (Or.inr rfl)
    · rcases List.mem_cons.mp h with rfl | h
      · exact Or.inr (Or.inl rfl)
      · exact Or.inl (hy c h)
  rw [try_parse_amount_clean _ halpha]
  have hdy : '.' ∉ y := fun hc => absurd (hy '.' hc) (by decide)
  have hccy : ',' ∉ '.' :: y := by
    intro hc
    rcases List.mem_cons.mp hc with h | h
    · exact absurd h (by decide)
    · exact absurd (hy ',' h) (by decide)
  rw [if_pos ⟨List.mem_append_right _ (List.mem_cons_self _ _), List.mem_append_left _ hcx⟩]
  rw [if_neg (by
    rw [rfindPos_append_cons_self x y '.' hdy, rfindPos_append_left x _ ',' hccy]
    exact not_lt.mpr (le_of_lt (rfindPos_lt x ',')))]
  have hfilter : (x ++ '.' :: y).filter (fun c => c != ',') =
      x.filter (fun c => c.isDigit) ++ '.' :: y := by
    rw [List.filter_append]
    congr 1
    · refine List.filter_congr ?_
      intro c hc
      rcases hx c hc with h | rfl
      · rw [h]
        simp only [bne_iff_ne, ne_eq, eq_iff_iff, iff_true]
        exact digit_ne_comma c h
      · decide
    · rw [List.filter_cons_of_pos (by decide)]
      congr 1
      rw [List.filter_eq_self]
      intro c hc
      simpa [bne_iff_ne] using digit_ne_comma c (hy c hc)
  rw [hfilter]
  exact parseFloat_split _ y (fun c hc => (List.mem_filter.mp hc).2) hy hyne

/-- C5: for well-formed two-separator numeric strings the rightmost
symbol is the decimal separator and the other symbol's occurrences are
removed: when the comma is rightmost (dots confined to the integer part)
the value is the digits with dots dropped over `10^|frac|`, and
symmetrically when the dot is rightmost; `"1.234,56"` and `"1,234.56"`
both parse to `1234.56`, `"1234,5"` parses to `1234.5`, and the empty
string is unparseable. -/
theorem C5_separator_rules :
    (∀ x y : List Char, (∀ c ∈ x, c.isDigit = true ∨ c = '.') →
        (∀ c ∈ y, c.isDigit = true) → y ≠ [] → '.' ∈ x →
        try_parse_amount (String.mk (x ++ ',' :: y)) =
          some ((digitsToNat (x.filter (fun c => c.isDigit) ++ y) : ℚ) / 10 ^ y.length))
  ∧ (∀ x y : List Char, (∀ c ∈ x, c.isDigit = true ∨ c = ',') →
        (∀ c ∈ y, c.isDigit = true) → y ≠ [] → ',' ∈ x →
        try_parse_amount (String.mk (x ++ '.' :: y)) =
          some ((digitsToNat (x.filter (fun c => c.isDigit) ++ y) : ℚ) / 10 ^ y.length))
  ∧ try_parse_amount "1.234,56" = some (mkRat 123456 100)
  ∧ try_parse_amount "1,234.56" = some (mkRat 123456 100)
  ∧ try_parse_amount "1234,5" = some (mkRat 12345 10)
  ∧ try_parse_amount "" = none :=
  ⟨C5_comma_decimal, C5_dot_decimal, by decide, by decide, by decide, rfl⟩

theorem C5_separator_rules_witness :
    try_parse_amount (String.mk (['1', '.', '2', '3', '4'] ++ ',' :: ['5', '6'])) =
      some ((digitsToNat ((['1', '.', '2', '3', '4'].filter (fun c => c.isDigit)) ++
          ['5', '6']) : ℚ) / 10 ^ (['5', '6'] : List Char).length) :=
  C5_separator_rules.1 ['1', '.', '2', '3', '4'] ['5', '6'] (by decide) (by decide)
    (by decide) (by decide)

/-- C9: the amount parser is total at its public interface — it returns
`none` or a value for every string and never raises: multiple decimal
points after normalization, letters-only input, the empty string and
separator-only input all yield `none`. -/
theorem C9_total_never_throws :
    (∀ s : String, try_parse_amount s = none ∨ ∃ q : ℚ, try_parse_amount s = some q)
  ∧ try_parse_amount "1.2.3" = none
  ∧ try_parse_amount "ABC" = none
  ∧ try_parse_amount "" = none
  ∧ try_parse_amount "..," = none := by
  refine ⟨?_, by decide, by decide, rfl, by decide⟩
  intro s
  cases h : try_parse_amount s with
  | none => exact Or.inl rfl
  | some q => exact Or.inr ⟨q, rfl⟩

theorem C4_amended_witness :
    (8 ≤ (extract_manifesto_destino_from_text "NUMERO: 12345678").1.length ∧
        ∀ c ∈ (extract_manifesto_destino_from_text "NUMERO: 12345678").1.data,
          c.isDigit = true) ∧
      (10 ≤ (extract_manifesto_destino_from_text "TEL: 123456 REF 123456789012 FIM").1.length ∧
        (extract_manifesto_destino_from_text "TEL: 123456 REF 123456789012 FIM").1.length ≤ 15) :=
  ⟨C4_amended_bounds.1 _ (by decide), C4_amended_bounds.2.1 _ (by decide) (by decide)⟩

/-! ## C2: monetary candidate selection -/

theorem foldl_max_mem (t : List (String × ℚ)) :
    ∀ a : String × ℚ, t.foldl (fun b x => if b.2 < x.2 then x else b) a ∈ a :: t := by
  induction t with
  | nil => intro a; exact List.mem_cons_self a []
  | cons c r ih =>
    intro a
    rw [List.foldl_cons]
    rcases List.mem_cons.mp (ih (if a.2 < c.2 then c else a)) with h | h
    · rw [h]
      split
      · exact List.mem_cons_of_mem _ (List.mem_cons_self _ _)
      · exact List.mem_cons_self _ _
    · exact List.mem_cons_of_mem _ (List.mem_cons_of_mem _ h)

theorem pymaxQ_mem (l : List (String × ℚ)) (x : String × ℚ) (h : pymaxQ l = some x) :
    x ∈ l := by
  cases l with
  | nil => simp [pymaxQ] at h
  | cons a t =>
    simp only [pymaxQ, Option.some.injEq] at h
    rw [← h]
    exact foldl_max_mem t a

theorem foldl_max_le (t : List (String × ℚ)) :
    ∀ (a p : String × ℚ), p ∈ a :: t →
      p.2 ≤ (t.foldl (fun b x => if b.2 < x.2 then x else b) a).2 := by
  induction t with
  | nil =>
    intro a p hp
    rcases List.mem_cons.mp hp with rfl | h
    · exact le_refl _
    · exact absurd h (List.not_mem_nil p)
  | cons c r ih =>
    intro a p hp
    rw [List.foldl_cons]
    have hstep : ∀ q : String × ℚ, q = a ∨ q = c →
        q.2 ≤ (if a.2 < c.2 then c else a).2 := by
      intro q hq
      rcases hq with rfl | rfl
      · split
        · exact le_of_lt (by assumption)
        · exact le_refl _
      · split
        · exact le_refl _
        · exact le_of_not_lt (by assumption)
    rcases List.mem_cons.mp hp with rfl | hp2
    · exact le_trans (hstep p (Or.inl rfl)) (ih _ _ (List.mem_cons_self _ _))
    · rcases List.mem_cons.mp hp2 with rfl | hp3
      · exact le_trans (hstep p (Or.inr rfl)) (ih _ _ (List.mem_cons_self _ _))
      · exact ih _ _ (List.mem_cons_of_mem _ hp3)

theorem pymaxQ_le (l : List (String × ℚ)) (x : String × ℚ) (h : pymaxQ l = some x) :
    ∀ p ∈ l, p.2 ≤ x.2 := by
  cases l with
  | nil => simp [pymaxQ] at h
  | cons a t =>
    simp only [pymaxQ, Option.some.injEq] at h
    intro p hp
    rw [← h]
    exact foldl_max_le t a p hp

theorem pymaxQ_eq_none (l : List (String × ℚ)) (h : pymaxQ l = none) : l = [] := by
  cases l with
  | nil => rfl
  | cons a t => simp [pymaxQ] at h

theorem parsed_mem (cands : List String) (p : String × ℚ)
    (h : p ∈ parsedOf cands) :
    p.1 ∈ cands ∧ try_parse_amount p.1 = some p.2 := by
  unfold parsedOf at h
  rw [List.mem_filterMap] at h
  obtain ⟨s, hs, hm⟩ := h
  rw [Option.map_eq_some'] at hm
  obtain ⟨w, hw, he⟩ := hm
  cases he
  exact ⟨hs, hw⟩

theorem pref_sub_parsed (parsed : List (String × ℚ)) (lt : String) (p : String × ℚ)
    (h : p ∈ prefList parsed lt) : p ∈ parsed := by
  unfold prefList at h
  split at h
  · exact absurd h (List.not_mem_nil p)
  · rw [List.mem_flatMap] at h
    obtain ⟨q, hq, hm⟩ := h
    rw [List.mem_map] at hm
    obtain ⟨_, _, rfl⟩ := hm
    exact hq

theorem choose_value_mem (cands : List String) (lt : String) (v : ℚ)
    (h : choose_value cands lt = some v) : ∃ s ∈ cands, try_parse_amount s = some v := by
  unfold choose_value at h
  split at h
  · rename_i p heq
    obtain rfl : p.2 = v := Option.some.inj h
    have hp := pref_sub_parsed _ lt p (pymaxQ_mem _ p heq)
    obtain ⟨h1, h2⟩ := parsed_mem cands p hp
    exact ⟨p.1, h1, h2⟩
  · split at h
    · rename_i p heq
      obtain rfl : p.2 = v := Option.some.inj h
      obtain ⟨h1, h2⟩ := parsed_mem cands p (pymaxQ_mem _ p heq)
      exact ⟨p.1, h1, h2⟩
    · exact absurd h (by simp)

theorem choose_value_max (cands : List String) (lt : String) (v : ℚ)
    (h : choose_value cands lt = some v) :
    (prefList (parsedOf cands) lt = [] →
      (∃ p ∈ parsedOf cands, p.2 = v) ∧ ∀ p ∈ parsedOf cands, p.2 ≤ v)
    ∧ (prefList (parsedOf cands) lt ≠ [] →
      (∃ p ∈ prefList (parsedOf cands) lt, p.2 = v) ∧
        ∀ p ∈ prefList (parsedOf cands) lt, p.2 ≤ v) := by
  unfold choose_value at h
  split at h
  · rename_i p heq
    obtain rfl : p.2 = v := Option.some.inj h
    constructor
    · intro hnil
      rw [hnil] at heq
      exact absurd heq (by simp [pymaxQ])
    · intro _
      exact ⟨⟨p, pymaxQ_mem _ p heq, rfl⟩, pymaxQ_le _ p heq⟩
  · rename_i hnone
    split at h
    · rename_i p heq
      obtain rfl : p.2 = v := Option.some.inj h
      constructor
      · intro _
        exact ⟨⟨p, pymaxQ_mem _ p heq, rfl⟩, pymaxQ_le _ p heq⟩
      · intro hne
        exact absurd (pymaxQ_eq_none _ hnone) hne
    · exact absurd h (by simp)

theorem choose_value_isSome (cands : List String) (lt : String)
    (h : ∃ s ∈ cands, (try_parse_amount s).isSome = true) :
    ∃ v, choose_value cands lt = some v := by
  obtain ⟨s, hs, hsome⟩ := h
  rw [Option.isSome_iff_exists] at hsome
  obtain ⟨w, hw⟩ := hsome
  have hmem : (s, w) ∈ parsedOf cands := by
    unfold parsedOf
    rw [List.mem_filterMap]
    exact ⟨s, hs, by rw [hw]; rfl⟩
  have hne : parsedOf cands ≠ [] := by
    intro he
    rw [he] at hmem
    exact List.not_mem_nil _ hmem
  unfold choose_value
  split
  · rename_i p heq
    exact ⟨p.2, rfl⟩
  · split
    · rename_i p heq
      exact ⟨p.2, rfl⟩
    · rename_i hnone
      exact absurd (pymaxQ_eq_none _ hnone) hne

/-- C2 counterexample: both candidates gathered from a labelled `VALOR
TOTAL` line parse; the first in document order parses to `10`, yet the
value accepted is `20` — the maximum, not the first successful parse the
claim prescribes. -/
theorem C2_counterexample :
    gatherNative "VALOR TOTAL: 10,00 20,00" = ["10,00", "20,00"] ∧
      try_parse_amount "10,00" = some 10 ∧
      choose_value ["10,00", "20,00"] "VALOR TOTAL: 10,00 20,00" = some 20 ∧
      (20 : ℚ) ≠ 10 := by
  exact ⟨by decide, by decide, by decide, by decide⟩

/-- C2 amended: for every gathered candidate list, a candidate whose
parse fails is skipped wherever it occurs (removing it anywhere leaves
the selection unchanged — fallthrough, never an abort of the field), a
value is produced whenever any candidate parses, the chosen value always
comes from a candidate that parses, and it is the maximum over the
parsed candidates — restricted to the `VALOR`-line preferred ones
exactly when that preference list is nonempty; concretely, the `VALOR`
preference overrides a larger non-`VALOR` candidate. -/
theorem C2_amended_max_selection :
    (∀ (pre post : List String) (bad : String) (lt : String), try_parse_amount bad = none →
        choose_value (pre ++ bad :: post) lt = choose_value (pre ++ post) lt)
  ∧ (∀ (cands : List String) (lt : String) (v : ℚ), choose_value cands lt = some v →
        ∃ s ∈ cands, try_parse_amount s = some v)
  ∧ (∀ (cands : List String) (lt : String) (v : ℚ), choose_value cands lt = some v →
        (prefList (parsedOf cands) lt = [] →
          (∃ p ∈ parsedOf cands, p.2 = v) ∧ ∀ p ∈ parsedOf cands, p.2 ≤ v)
        ∧ (prefList (parsedOf cands) lt ≠ [] →
          (∃ p ∈ prefList (parsedOf cands) lt, p.2 = v) ∧
            ∀ p ∈ prefList (parsedOf cands) lt, p.2 ≤ v))
  ∧ (∀ (cands : List String) (lt : String),
        (∃ s ∈ cands, (try_parse_amount s).isSome = true) →
        ∃ v, choose_value cands lt = some v)
  ∧ choose_value ["5,00", "30,00", "7,00"] "" = some 30
  ∧ choose_value ["10,00", "99,99"] "VALOR TOTAL: 10,00\nFRETE: 99,99" = some 10 := by
  refine ⟨?_, choose_value_mem, choose_value_max, choose_value_isSome, by decide, by decide⟩
  intro pre post bad lt hbad
  unfold choose_value parsedOf
  rw [List.filterMap_append, List.filterMap_append,
      List.filterMap_cons_none (by rw [hbad]; rfl)]

theorem C2_amended_witness :
    (choose_value (["7,00"] ++ "XX" :: ["30,00"]) "" =
        choose_value (["7,00"] ++ ["30,00"]) "")
  ∧ (∃ s ∈ (["5,00", "30,00", "7,00"] : List String), try_parse_amount s = some 30)
  ∧ ((∃ p ∈ prefList (parsedOf ["10,00", "99,99"]) "VALOR TOTAL: 10,00\nFRETE: 99,99",
        p.2 = 10) ∧
      ∀ p ∈ prefList (parsedOf ["10,00", "99,99"]) "VALOR TOTAL: 10,00\nFRETE: 99,99",
        p.2 ≤ 10)
  ∧ (∃ v, choose_value ["XX", "5,00"] "" = some v) :=
  ⟨C2_amended_max_selection.1 ["7,00"] ["30,00"] "XX" "" (by decide),
   C2_amended_max_selection.2.1 ["5,00", "30,00", "7,00"] "" 30 (by decide),
   (C2_amended_max_selection.2.2.1 ["10,00", "99,99"]
      "VALOR TOTAL: 10,00\nFRETE: 99,99" 10 (by decide)).2 (by decide),
   C2_amended_max_selection.2.2.2.1 ["XX", "5,00"] "" ⟨"5,00", by decide, by decide⟩⟩

/-! ## C6: per-page volume tiers -/

/-- C6: for every page exactly one of the three tiers contributes,
evaluated in priority order — an explicit label match wins, else the
dotted-number tail contributes its leading integer, else a bare leading
integer within the plausibility range `0 < n < 5000`; a page matching no
tier (or only an out-of-range bare integer) contributes zero; and on the
three synthetic pages the total is `12 + 0 + 5 = 17`. -/
theorem C6_volume_tiers :
    (∀ (t : String) (n : Nat), tierAAux none t.data = some n → pageVolume t = n)
  ∧ (∀ (t : String) (n : Nat), tierAAux none t.data = none →
        tierBAux none t.data = some n → pageVolume t = n)
  ∧ (∀ (t : String) (n : Nat), tierAAux none t.data = none →
        tierBAux none t.data = none → tierC t.data = some n →
        0 < n → n < 5000 → pageVolume t = n)
  ∧ (∀ (t : String) (n : Nat), tierAAux none t.data = none →
        tierBAux none t.data = none → tierC t.data = some n →
        ¬(0 < n ∧ n < 5000) → pageVolume t = 0)
  ∧ (∀ t : String, tierAAux none t.data = none → tierBAux none t.data = none →
        tierC t.data = none → pageVolume t = 0)
  ∧ aggregateVolumes ["VOLUMES: 12", "", "5.00"] = 17 := by
  refine ⟨?_, ?_, ?_, ?_, ?_, by decide⟩
  · intro t n h
    unfold pageVolume
    rw [h]
  · intro t n h1 h2
    unfold pageVolume
    rw [h1, h2]
  · intro t n h1 h2 h3 h4 h5
    unfold pageVolume
    rw [h1, h2, h3]
    show (if 0 < n ∧ n < 5000 then n else 0) = n
    rw [if_pos ⟨h4, h5⟩]
  · intro t n h1 h2 h3 h4
    unfold pageVolume
    rw [h1, h2, h3]
    show (if 0 < n ∧ n < 5000 then n else 0) = 0
    rw [if_neg h4]
  · intro t h1 h2 h3
    unfold pageVolume
    rw [h1, h2, h3]

theorem C6_volume_tiers_witness :
    pageVolume "VOLUMES: 12" = 12 ∧ pageVolume "5.00" = 5 ∧ pageVolume "" = 0 :=
  ⟨C6_volume_tiers.1 "VOLUMES: 12" 12 (by decide),
   C6_volume_tiers.2.1 "5.00" 5 (by decide) (by decide),
   C6_volume_tiers.2.2.2.2.1 "" (by decide) (by decide) (by decide)⟩

/-! ## C7: source priority -/

/-- C7: a destination or total value obtained from native text is never
replaced by an OCR-derived one — whenever native extraction resolves the
destination, the final record carries exactly that value irrespective of
every OCR text, and whenever the native last page yields monetary
candidates, the chosen value is computed from those native candidates;
the OCR fallbacks run only when the native result is empty. -/
theorem C7_native_priority (pages ocr : List String) :
    ((extract_manifesto_destino_from_text (String.mk (joinNl pages))).2 ≠ "" →
      (process_pdf_model pages ocr).destino =
        (extract_manifesto_destino_from_text (String.mk (joinNl pages))).2)
  ∧ (gatherNative (pages.getLastD "") ≠ [] →
      (process_pdf_model pages ocr).valorQ =
        choose_value (gatherNative (pages.getLastD "")) (pages.getLastD "")) := by
  constructor
  · intro h
    cases pages with
    | nil => exact absurd (by decide) h
    | cons p ps =>
      simp only [process_pdf_model]
      rw [if_neg h]
  · intro h
    simp only [process_pdf_model]
    rw [if_neg h]

theorem C7_native_priority_witness :
    (process_pdf_model ["VALOR TOTAL: 10,00\nNITEROI - RJ"]
        ["MACAE - RJ\nVALOR TOTAL: 99,99"]).destino = "NITEROI - RJ" ∧
      (process_pdf_model ["VALOR TOTAL: 10,00\nNITEROI - RJ"]
        ["MACAE - RJ\nVALOR TOTAL: 99,99"]).valorQ = some 10 :=
  ⟨((C7_native_priority ["VALOR TOTAL: 10,00\nNITEROI - RJ"]
        ["MACAE - RJ\nVALOR TOTAL: 99,99"]).1 (by decide)).trans (by decide),
   ((C7_native_priority ["VALOR TOTAL: 10,00\nNITEROI - RJ"]
        ["MACAE - RJ\nVALOR TOTAL: 99,99"]).2 (by decide)).trans (by decide)⟩

/-! ## C3: OCR fallback scope -/

/-- C3 counterexample: with native text lacking both identifier and date
while the first-page OCR text contains both (the extractors find them
there), the pipeline still finalizes the record with empty identifier and
date — no OCR re-run for those fields exists. -/
theorem C3_counterexample :
    (process_pdf_model ["NADA AQUI"]
        ["NUMERO: 123456789 11 OUT 2025 22:03:28"]).manifesto = "" ∧
      (process_pdf_model ["NADA AQUI"]
        ["NUMERO: 123456789 11 OUT 2025 22:03:28"]).data = "" ∧
      extract_manifesto_destino_from_text "NUMERO: 123456789 11 OUT 2025 22:03:28" =
        ("123456789", "") ∧
      extract_data_hora_from_head "NUMERO: 123456789 11 OUT 2025 22:03:28" =
        ("11/10/2025", "22:03:28") :=
  ⟨by decide, by decide, by decide, by decide⟩

/-- C3 amended: identifier and date come from native text only — the
final record's identifier and date are invariant under every change of
the OCR texts, so no OCR fallback re-runs those extractors (OCR fallback
exists only for the monetary total and the destination). -/
theorem C3_amended_no_ocr_retry (pages ocr1 ocr2 : List String) :
    (process_pdf_model pages ocr1).manifesto = (process_pdf_model pages ocr2).manifesto ∧
      (process_pdf_model pages ocr1).data = (process_pdf_model pages ocr2).data :=
  ⟨rfl, rfl⟩

end Manifest
